import Mathlib

/-!
# Verification of the OpenSBI inter-hart interrupt engine (`lib/sbi/sbi_ipi.c`)

Shallow embedding of `sbi_ipi_send`, `sbi_ipi_send_many`, `sbi_ipi_process`
and `sbi_ipi_init`.  Machine words (`ulong`) are modelled as `Nat` with an
explicit reduction `% 2^64` wherever the C type forces truncation.  The
external collaborators (hart registry, scratch store, TLB fifo, platform
doorbell driver) are abstract environment parameters; their observable calls
are recorded in an effect trace so that ordering properties can be stated.
-/

namespace SbiIpi

/-- Width of `unsigned long` on RV64: values of C type `ulong` live below
`2^64`; `UL` is the truncation applied by every assignment to a `ulong`. -/
def UL (x : Nat) : Nat := x % 2 ^ 64

/-- C bitwise complement `~x` of a 64-bit `ulong`. -/
def lnot64 (x : Nat) : Nat := (2 ^ 64 - 1) ^^^ UL x

/-- Modelled from the spec: `__fls(mask)` (header `sbi_bitops.h`, not under
`src/`) returns the index of the highest set bit of a nonzero word, which is
`Nat.log2`. -/
def fls (x : Nat) : Nat := Nat.log2 x

/-- Error code `SBI_EINVAL` from `sbi_error.h` (header not under `src/`; value as in the
OpenSBI error table). -/
def SBI_EINVAL : Int := -3

/-- Error code `SBI_ENOMEM` from `sbi_error.h` (header not under `src/`; value as in the
OpenSBI error table). -/
def SBI_ENOMEM : Int := -13

/-- IPI event bit positions from `sbi_ipi.h`: `SBI_IPI_EVENT_SOFT`. -/
def SBI_IPI_EVENT_SOFT : Nat := 0

/-- IPI event bit positions from `sbi_ipi.h`: `SBI_IPI_EVENT_FENCE`. -/
def SBI_IPI_EVENT_FENCE : Nat := 1

/-- IPI event bit positions from `sbi_ipi.h`: `SBI_IPI_EVENT_HALT`. -/
def SBI_IPI_EVENT_HALT : Nat := 2

/-- Primitive `atomic_raw_set_bit(nr, w)`: atomic fetch-or of the bit `nr` into the
word `w` (from `riscv_atomic.c`, not under `src/`; the atomicity itself is
the interleaving granularity of the model). -/
def atomic_raw_set_bit (nr : Nat) (w : Nat) : Nat := w ||| (1 <<< nr)

/-- Observable calls made by the IPI engine to its collaborators, recorded
in program order. -/
inductive Action where
  /-- Call `sbi_tlb_fifo_update(remote_scratch, hartid, data)` succeeded:
  a fence request for `hart` was enqueued. -/
  | enqueue (hart : Nat) (data : Nat)
  /-- Call of `atomic_raw_set_bit(event, ipi_type)` on the word of `hart`. -/
  | setBit (hart : Nat) (event : Nat)
  /-- Barrier `smp_wmb()`. -/
  | wmb
  /-- Call `sbi_platform_ipi_send(plat, hartid)`: the doorbell. -/
  | doorbell (hart : Nat)
  /-- Call `sbi_tlb_fifo_sync(scratch)`: blocking wait on the caller's fence
  queue. -/
  | fenceSync
  /-- Call `sbi_platform_ipi_clear(plat, hartid)`. -/
  | ackIrq (hart : Nat)
  /-- Call `csr_set(CSR_MIP, MIP_SSIP)`: raise the deferred soft interrupt. -/
  | setSSIP
  /-- Call `sbi_tlb_fifo_process(scratch)`: drain the local fence queue. -/
  | tlbProcess
  /-- Call `sbi_exit(scratch)`: halt this hart. -/
  | exitHart
  /-- Store `ipi_type = 0x00` in `sbi_ipi_init`. -/
  | resetWord (hart : Nat)
  /-- Call `sbi_tlb_fifo_init(scratch, cold_boot)`. -/
  | tlbInit
  /-- Call `sbi_platform_ipi_init(plat, cold_boot)`. -/
  | platformInit
  /-- Call `csr_set(CSR_MIE, MIP_MSIP)`: enable soft interrupts. -/
  | enableSoftIrq
  deriving DecidableEq, Repr

/-- Global state visible to the IPI engine: each hart's pending-event word
(`struct sbi_ipi_data.ipi_type`, living in that hart's scratch area) plus
the trace of collaborator calls issued so far. -/
structure State where
  ipiType : Nat → Nat
  trace : List Action

/-- Write `hart`'s pending-event word. -/
def setIpiType (st : State) (hart : Nat) (w : Nat) : State :=
  { st with ipiType := fun h => if h = hart then w else st.ipiType h }

/-- Append collaborator calls to the trace. -/
def emit (st : State) (acts : List Action) : State :=
  { st with trace := st.trace ++ acts }

/-- Environment of a send: the hart registry and the outcome of the external
TLB-fifo enqueue.  `availMask` is `sbi_hart_available_mask()`, `hartid` is
`sbi_current_hartid()`, `disabled` is `sbi_platform_hart_disabled`, and
`tlbUpdateRet` is the return value of `sbi_tlb_fifo_update` for a given
target hart (the fifo itself is external to `src/`; a negative return means
nothing was enqueued). -/
structure Env where
  availMask : Nat
  hartid : Nat
  disabled : Nat → Bool
  tlbUpdateRet : Nat → Int

/-- Function `sbi_ipi_send(scratch, hartid, event, data)`: deliver one event to one
hart.  Skips disabled harts with `-1`; for `SBI_IPI_EVENT_FENCE` first
enqueues into the target's fence fifo (propagating a negative error before
touching the word), then atomically sets the event bit, issues the write
barrier and the doorbell, and for fence events finally blocks on
`sbi_tlb_fifo_sync`. -/
def sbi_ipi_send (env : Env) (st : State) (hartid : Nat) (event : Nat)
    (data : Nat) : Int × State :=
  if env.disabled hartid then (-1, st)
  else
    let rest : State → Int × State := fun st =>
      let st := setIpiType st hartid
        (atomic_raw_set_bit event (st.ipiType hartid))
      let st := emit st [.setBit hartid event, .wmb, .doorbell hartid]
      if event = SBI_IPI_EVENT_FENCE then (0, emit st [.fenceSync])
      else (0, st)
    if event = SBI_IPI_EVENT_FENCE then
      let ret := env.tlbUpdateRet hartid
      if ret < 0 then (ret, st)
      else rest (emit st [.enqueue hartid data])
    else rest st

/-- The loop body of `sbi_ipi_send_many`:
`for (i = 0, m = mask; m; i++, m >>= 1) if ((m & 1UL) && (i != hartid)) …`.
The return value of `sbi_ipi_send` is discarded, exactly as in the C. -/
def sendLoop (env : Env) (event data : Nat) (i m : Nat) (st : State) :
    State :=
  if m = 0 then st
  else
    let st :=
      if m &&& 1 = 1 ∧ i ≠ env.hartid then
        (sbi_ipi_send env st i event data).2
      else st
    sendLoop env event data (i + 1) (m >>> 1) st
termination_by m
decreasing_by
  simp only [Nat.shiftRight_succ, Nat.shiftRight_zero]
  omega

/-- Function `sbi_ipi_send_many(scratch, hmask, hbase, event, data)`: validate the
hart mask against the available-hart mask, then fan the event out to every
selected hart other than the caller in ascending id order, and finally to
the caller itself. -/
def sbi_ipi_send_many (env : Env) (st : State) (hmask hbase : Nat)
    (event : Nat) (data : Nat) : Int × State :=
  let mask := UL env.availMask
  let last_bit := fls mask
  if hbase > last_bit then (SBI_EINVAL, st)
  else
    let tempmask := UL (hmask <<< hbase)
    let tempmask := lnot64 mask &&& tempmask
    if tempmask ≠ 0 then (SBI_EINVAL, st)
    else
      let mask := mask &&& UL (hmask <<< hbase)
      let st := sendLoop env event data 0 mask st
      let st :=
        if mask &&& (1 <<< env.hartid) ≠ 0 then
          (sbi_ipi_send env st env.hartid event data).2
        else st
      (0, st)

/-- The effect of dispatching one event bit in `sbi_ipi_process`'s switch:
`SOFT` raises `MIP_SSIP`, `FENCE` drains the fence fifo, `HALT` calls
`sbi_exit`, every other position is the `default: break` no-op. -/
def dispatchAction : Nat → List Action
  | 0 => [.setSSIP]
  | 1 => [.tlbProcess]
  | 2 => [.exitHart]
  | _ => []

/-- The `while (ipi_type)` loop of `sbi_ipi_process`: walk the snapshot from
bit 0 upward, dispatching each set bit; returns the final state and the list
of bit positions found set, in the order they were dispatched. -/
def processLoop (st : State) (ipi_type ipi_event : Nat) :
    State × List Nat :=
  if ipi_type = 0 then (st, [])
  else
    let step :=
      if ipi_type &&& 1 = 1 then
        (emit st (dispatchAction ipi_event), [ipi_event])
      else (st, ([] : List Nat))
    let r := processLoop step.1 (ipi_type >>> 1) (ipi_event + 1)
    (r.1, step.2 ++ r.2)
termination_by ipi_type
decreasing_by
  simp only [Nat.shiftRight_succ, Nat.shiftRight_zero]
  omega

/-- Function `sbi_ipi_process(scratch)`: clear the doorbell, atomically exchange the
local pending-event word with zero, and dispatch every bit of the snapshot
from bit 0 upward.  `hartid` is `sbi_current_hartid()`. -/
def sbi_ipi_process (st : State) (hartid : Nat) : State × List Nat :=
  let st := emit st [.ackIrq hartid]
  let ipi_type := st.ipiType hartid
  let st := setIpiType st hartid 0
  processLoop st ipi_type 0

/-- Environment of `sbi_ipi_init`: `allocRet` is the offset returned by
`sbi_scratch_alloc_offset` (0 signals exhaustion), `tlbInitRet` and
`platformIpiInitRet` are the results of the external `sbi_tlb_fifo_init`
and `sbi_platform_ipi_init` (both outside `src/`; the spec says their
failures are propagated). -/
structure InitEnv where
  hartid : Nat
  allocRet : Nat
  tlbInitRet : Int
  platformIpiInitRet : Int

/-- Function `sbi_ipi_init(scratch, cold_boot)`: on cold boot allocate the scratch
offset for the pending-event word (failing with `SBI_ENOMEM` when the
allocator returns 0); on warm boot fail with `SBI_ENOMEM` when the cold
allocation never happened; then zero the local word, init the TLB fifo and
the platform, propagating their errors, and enable soft interrupts.
Returns (result, new value of the `ipi_data_off` global, state). -/
def sbi_ipi_init (env : InitEnv) (ipi_data_off : Nat) (st : State)
    (cold_boot : Bool) : Int × Nat × State :=
  let off := if cold_boot then env.allocRet else ipi_data_off
  if cold_boot ∧ env.allocRet = 0 then (SBI_ENOMEM, off, st)
  else if ¬cold_boot ∧ ipi_data_off = 0 then (SBI_ENOMEM, off, st)
  else
    let st := setIpiType st env.hartid 0
    let st := emit st [.resetWord env.hartid]
    let st := emit st [.tlbInit]
    if env.tlbInitRet ≠ 0 then (env.tlbInitRet, off, st)
    else
      let st := emit st [.platformInit]
      if env.platformIpiInitRet ≠ 0 then (env.platformIpiInitRet, off, st)
      else (0, off, emit st [.enableSoftIrq])

/-- The list of bit positions set in `m`, reported relative to a running
index `i`, in the order the `for`/`while` loops of `sbi_ipi_send_many` and
`sbi_ipi_process` visit them (ascending, starting at `i`). -/
def bitIndicesFrom (i m : Nat) : List Nat :=
  if m = 0 then []
  else (if m &&& 1 = 1 then [i] else []) ++ bitIndicesFrom (i + 1) (m >>> 1)
termination_by m
decreasing_by
  simp only [Nat.shiftRight_succ, Nat.shiftRight_zero]
  omega

theorem mem_bitIndicesFrom {m : Nat} :
    ∀ {i p : Nat}, p ∈ bitIndicesFrom i m ↔ (i ≤ p ∧ m.testBit (p - i)) := by
  induction m using Nat.strong_induction_on with
  | _ m ih =>
    intro i p
    rw [bitIndicesFrom]
    by_cases h0 : m = 0
    · simp [h0]
    · have hlt : m >>> 1 < m := by
        simp only [Nat.shiftRight_succ, Nat.shiftRight_zero]; omega
      have hmod : m &&& 1 = m % 2 := Nat.and_one_is_mod m
      have hbit0 : m.testBit 0 = decide (m % 2 = 1) := Nat.testBit_zero m
      simp only [if_neg h0, List.mem_append, ih _ hlt, hmod]
      rcases Nat.lt_trichotomy p i with hpi | hpi | hpi
      · constructor
        · rintro (hmem | ⟨hle, _⟩)
          · simp at hmem; omega
          · omega
        · rintro ⟨hle, _⟩; omega
      · subst hpi
        constructor
        · rintro (hmem | ⟨hle, _⟩)
          · refine ⟨le_refl p, ?_⟩
            simp only [Nat.sub_self, hbit0, decide_eq_true_eq]
            simp at hmem
            omega
          · omega
        · rintro ⟨-, hbit⟩
          simp only [Nat.sub_self, hbit0, decide_eq_true_eq] at hbit
          simp [hbit]
      · have hsub : p - i = (p - (i + 1)) + 1 := by omega
        have hshift : (m >>> 1).testBit (p - (i + 1)) = m.testBit (p - i) := by
          rw [Nat.testBit_shiftRight, hsub, Nat.add_comm]
        constructor
        · rintro (hmem | ⟨hle, hbit⟩)
          · simp at hmem; omega
          · exact ⟨by omega, by rw [← hshift]; exact hbit⟩
        · rintro ⟨-, hbit⟩
          right
          exact ⟨by omega, by rw [hshift]; exact hbit⟩

theorem le_of_mem_bitIndicesFrom {m i p : Nat}
    (h : p ∈ bitIndicesFrom i m) : i ≤ p :=
  (mem_bitIndicesFrom.mp h).1

theorem bitIndicesFrom_pairwise (m : Nat) :
    ∀ i, List.Pairwise (· < ·) (bitIndicesFrom i m) := by
  induction m using Nat.strong_induction_on with
  | _ m ih =>
    intro i
    rw [bitIndicesFrom]
    by_cases h0 : m = 0
    · simp [h0]
    · have hlt : m >>> 1 < m := by
        simp only [Nat.shiftRight_succ, Nat.shiftRight_zero]; omega
      simp only [if_neg h0]
      refine List.pairwise_append.mpr ⟨?_, ih _ hlt (i + 1), ?_⟩
      · split <;> simp
      · intro a ha b hb
        have hb' : i + 1 ≤ b := le_of_mem_bitIndicesFrom hb
        simp at ha
        omega

theorem bitIndicesFrom_nodup (m i : Nat) : (bitIndicesFrom i m).Nodup :=
  (bitIndicesFrom_pairwise m i).imp Nat.ne_of_lt

/-- The collaborator calls one `sbi_ipi_send` issues, as a function of its
environment: nothing for a disabled hart or a failed fence-fifo enqueue;
otherwise the (optional) enqueue, the atomic bit set, the write barrier, the
doorbell, and (for fence events) the blocking sync, in program order. -/
def deliveryTrace (env : Env) (hartid event data : Nat) : List Action :=
  if env.disabled hartid then []
  else if event = SBI_IPI_EVENT_FENCE then
    if env.tlbUpdateRet hartid < 0 then []
    else [.enqueue hartid data, .setBit hartid event, .wmb,
          .doorbell hartid, .fenceSync]
  else [.setBit hartid event, .wmb, .doorbell hartid]

/-- The new value of the target's pending-event word after one
`sbi_ipi_send`. -/
def deliveredWord (env : Env) (hartid event w : Nat) : Nat :=
  if env.disabled hartid then w
  else if event = SBI_IPI_EVENT_FENCE then
    if env.tlbUpdateRet hartid < 0 then w
    else atomic_raw_set_bit event w
  else atomic_raw_set_bit event w

theorem send_trace (env : Env) (st : State) (h e d : Nat) :
    (sbi_ipi_send env st h e d).2.trace =
      st.trace ++ deliveryTrace env h e d := by
  simp only [sbi_ipi_send, deliveryTrace, emit, setIpiType]
  split_ifs <;> simp

theorem send_ipiType (env : Env) (st : State) (h e d x : Nat) :
    (sbi_ipi_send env st h e d).2.ipiType x =
      if x = h then deliveredWord env h e (st.ipiType h)
      else st.ipiType x := by
  by_cases hx : x = h
  · subst hx
    simp only [sbi_ipi_send, deliveredWord, emit, setIpiType]
    split_ifs <;> simp
  · simp only [sbi_ipi_send, deliveredWord, emit, setIpiType]
    split_ifs <;> simp [hx]

theorem deliveredWord_disabled (env : Env) (h e w : Nat)
    (hd : env.disabled h = true) : deliveredWord env h e w = w := by
  simp [deliveredWord, hd]

theorem sendLoop_trace (env : Env) (e d : Nat) :
    ∀ m i st, (sendLoop env e d i m st).trace =
      st.trace ++ (((bitIndicesFrom i m).filter
          (fun j => decide (j ≠ env.hartid))).map
        (fun h => deliveryTrace env h e d)).flatten := by
  intro m
  induction m using Nat.strong_induction_on with
  | _ m ih =>
    intro i st
    rw [sendLoop, bitIndicesFrom]
    by_cases h0 : m = 0
    · simp [h0]
    · have hlt : m >>> 1 < m := by
        simp only [Nat.shiftRight_succ, Nat.shiftRight_zero]; omega
      simp only [if_neg h0]
      rw [ih _ hlt]
      by_cases hb : m % 2 = 1
      · by_cases hh : i = env.hartid
        · simp [hb, hh]
        · simp [hb, hh, send_trace, List.append_assoc]
      · simp [hb]

theorem sendLoop_ipiType_disabled (env : Env) (e d x : Nat)
    (hd : env.disabled x = true) :
    ∀ m i st, (sendLoop env e d i m st).ipiType x = st.ipiType x := by
  intro m
  induction m using Nat.strong_induction_on with
  | _ m ih =>
    intro i st
    rw [sendLoop]
    by_cases h0 : m = 0
    · simp [h0]
    · have hlt : m >>> 1 < m := by
        simp only [Nat.shiftRight_succ, Nat.shiftRight_zero]; omega
      simp only [if_neg h0]
      rw [ih _ hlt]
      split
      · rw [send_ipiType]
        split
        · rename_i hx
          rw [hx, deliveredWord_disabled env i e _ (hx ▸ hd)]
        · rfl
      · rfl

/-- The set of harts `sbi_ipi_send_many` actually selects:
`sbi_hart_available_mask() & (hmask << hbase)` with `ulong` truncation. -/
def targetMask (env : Env) (hmask hbase : Nat) : Nat :=
  UL env.availMask &&& UL (hmask <<< hbase)

/-- The order in which `sbi_ipi_send_many` delivers: all selected harts
other than the caller in ascending id order, then the caller itself. -/
def orderedTargets (env : Env) (hmask hbase : Nat) : List Nat :=
  (bitIndicesFrom 0 (targetMask env hmask hbase)).filter
      (fun j => decide (j ≠ env.hartid)) ++
    (if (targetMask env hmask hbase).testBit env.hartid then [env.hartid]
     else [])

theorem and_one_shiftLeft_ne_zero (m k : Nat) :
    (m &&& (1 <<< k) ≠ 0) ↔ m.testBit k = true := by
  have hpow : (2 : Nat) ^ k ≠ 0 := Nat.pos_iff_ne_zero.mp (Nat.two_pow_pos k)
  rw [Nat.one_shiftLeft, Nat.and_two_pow]
  rcases hb : m.testBit k <;> simp [hpow]

/-- A validated `sbi_ipi_send_many` unfolded: return 0, run the fan-out
loop over the target mask, then send to the caller itself when selected. -/
theorem send_many_valid_eq (env : Env) (st : State) (hmask hbase e d : Nat)
    (h1 : hbase ≤ fls (UL env.availMask))
    (h2 : lnot64 (UL env.availMask) &&& UL (hmask <<< hbase) = 0) :
    sbi_ipi_send_many env st hmask hbase e d =
      ((0 : Int),
        if targetMask env hmask hbase &&& (1 <<< env.hartid) ≠ 0 then
            (sbi_ipi_send env
              (sendLoop env e d 0 (targetMask env hmask hbase) st)
              env.hartid e d).2
          else sendLoop env e d 0 (targetMask env hmask hbase) st) := by
  have hnot : ¬hbase > fls (UL env.availMask) := by omega
  simp only [sbi_ipi_send_many, targetMask]
  rw [if_neg hnot]
  simp [h2]

/-- Characterization of a validated `sbi_ipi_send_many`: it returns 0, and
its collaborator calls are exactly the per-target deliveries in the order
of `orderedTargets`. -/
theorem send_many_valid (env : Env) (st : State) (hmask hbase e d : Nat)
    (h1 : hbase ≤ fls (UL env.availMask))
    (h2 : lnot64 (UL env.availMask) &&& UL (hmask <<< hbase) = 0) :
    (sbi_ipi_send_many env st hmask hbase e d).1 = 0 ∧
    (sbi_ipi_send_many env st hmask hbase e d).2.trace =
      st.trace ++ ((orderedTargets env hmask hbase).map
        (fun h => deliveryTrace env h e d)).flatten := by
  have heq := send_many_valid_eq env st hmask hbase e d h1 h2
  rw [heq]
  refine ⟨rfl, ?_⟩
  by_cases hc : targetMask env hmask hbase &&& (1 <<< env.hartid) = 0
  · have hbit : (targetMask env hmask hbase).testBit env.hartid = false := by
      rcases hbch : (targetMask env hmask hbase).testBit env.hartid
      · rfl
      · exact absurd ((and_one_shiftLeft_ne_zero _ _).mpr hbch) (by simp [hc])
    rw [if_neg (by simp [hc])]
    rw [sendLoop_trace]
    simp [orderedTargets, hbit]
  · have hbit : (targetMask env hmask hbase).testBit env.hartid = true :=
      (and_one_shiftLeft_ne_zero _ _).mp hc
    rw [if_pos hc]
    rw [send_trace, sendLoop_trace]
    simp [orderedTargets, hbit, List.append_assoc]

theorem processLoop_spec :
    ∀ t e (st : State), (processLoop st t e).2 = bitIndicesFrom e t ∧
      (processLoop st t e).1.trace =
        st.trace ++ ((bitIndicesFrom e t).map dispatchAction).flatten ∧
      ∀ x, (processLoop st t e).1.ipiType x = st.ipiType x := by
  intro t
  induction t using Nat.strong_induction_on with
  | _ t ih =>
    intro e st
    rw [processLoop, bitIndicesFrom]
    by_cases h0 : t = 0
    · simp [h0]
    · have hlt : t >>> 1 < t := by
        simp only [Nat.shiftRight_succ, Nat.shiftRight_zero]; omega
      simp only [Nat.and_one_is_mod, if_neg h0]
      by_cases hb : t % 2 = 1
      · simp only [if_pos hb]
        obtain ⟨ih1, ih2, ih3⟩ := ih _ hlt (e + 1) (emit st (dispatchAction e))
        refine ⟨?_, ?_, ?_⟩
        · simpa using ih1
        · rw [ih2]
          simp [emit, List.append_assoc]
        · intro x
          rw [ih3]
          rfl
      · simp only [if_neg hb]
        obtain ⟨ih1, ih2, ih3⟩ := ih _ hlt (e + 1) st
        exact ⟨by simpa using ih1, by simpa using ih2, fun x => ih3 x⟩

/-- Characterization of `sbi_ipi_process`: the doorbell is acknowledged,
the local word is zeroed (other harts' words untouched), and the dispatched
positions are exactly the set bits of the snapshot, in ascending order. -/
theorem process_spec (st : State) (H : Nat) :
    (sbi_ipi_process st H).2 = bitIndicesFrom 0 (st.ipiType H) ∧
    (sbi_ipi_process st H).1.trace =
      st.trace ++ Action.ackIrq H ::
        ((bitIndicesFrom 0 (st.ipiType H)).map dispatchAction).flatten ∧
    (sbi_ipi_process st H).1.ipiType H = 0 ∧
    ∀ x, x ≠ H → (sbi_ipi_process st H).1.ipiType x = st.ipiType x := by
  obtain ⟨h1, h2, h3⟩ :=
    processLoop_spec (st.ipiType H) 0 (setIpiType (emit st [.ackIrq H]) H 0)
  have hword : (setIpiType (emit st [.ackIrq H]) H 0).ipiType H = 0 := by
    simp [setIpiType, emit]
  refine ⟨?_, ?_, ?_, ?_⟩
  · simpa [sbi_ipi_process, emit, setIpiType] using h1
  · have := h2
    simp only [setIpiType, emit] at this
    simpa [sbi_ipi_process, emit, setIpiType] using this
  · rw [sbi_ipi_process]
    simp only [emit, setIpiType] at h3 ⊢
    rw [h3 H]
    simp
  · intro x hx
    rw [sbi_ipi_process]
    simp only [emit, setIpiType] at h3 ⊢
    rw [h3 x]
    simp [hx]

/-! ## Claim theorems -/

/-- A concrete starting state used by the witnesses: every pending word 0,
empty trace. -/
def st0 : State := ⟨fun _ => 0, []⟩

/-- C1: if any bit of `hmask << hbase` (as the C computes it, a 64-bit
word) falls outside the available-hart mask, `sbi_ipi_send_many` returns
`SBI_EINVAL` and the state is exactly unchanged: no hart's pending-event
word is modified, no fence-queue enqueue and no doorbell appears in the
trace — validation is all-or-nothing. -/
theorem send_many_invalid_mask_rejected_wholesale
    (env : Env) (st : State) (hmask hbase e d : Nat)
    (h : lnot64 (UL env.availMask) &&& UL (hmask <<< hbase) ≠ 0) :
    sbi_ipi_send_many env st hmask hbase e d = (SBI_EINVAL, st) := by
  simp only [sbi_ipi_send_many]
  by_cases hb : hbase > fls (UL env.availMask)
  · rw [if_pos hb]
  · rw [if_neg hb, if_pos h]

theorem send_many_invalid_mask_rejected_wholesale_witness :
    lnot64 (UL (⟨1, 0, fun _ => false, fun _ => 0⟩ : Env).availMask) &&&
        UL ((2 : Nat) <<< 0) ≠ 0 ∧
    sbi_ipi_send_many ⟨1, 0, fun _ => false, fun _ => 0⟩ st0 2 0 0 0 =
      (SBI_EINVAL, st0) :=
  ⟨by decide,
   send_many_invalid_mask_rejected_wholesale
     ⟨1, 0, fun _ => false, fun _ => 0⟩ st0 2 0 0 0 (by decide)⟩

/-- C8: a call that passes validation but selects no hart (the selected
target mask `avail & (hmask << hbase)` is zero, which includes
`hmask = 0`) returns success and is a complete no-op: the state, every
pending word and the trace are exactly unchanged. -/
theorem send_many_empty_target_noop
    (env : Env) (st : State) (hmask hbase e d : Nat)
    (h1 : hbase ≤ fls (UL env.availMask))
    (h2 : lnot64 (UL env.availMask) &&& UL (hmask <<< hbase) = 0)
    (h3 : UL env.availMask &&& UL (hmask <<< hbase) = 0) :
    sbi_ipi_send_many env st hmask hbase e d = ((0 : Int), st) := by
  have hl : sendLoop env e d 0 0 st = st := by rw [sendLoop]; simp
  simp only [sbi_ipi_send_many]
  rw [if_neg (by omega)]
  simp [h2, h3, hl]

theorem send_many_empty_target_noop_witness :
    (0 : Nat) ≤ fls (UL (⟨7, 0, fun _ => false, fun _ => 0⟩ : Env).availMask) ∧
    lnot64 (UL (⟨7, 0, fun _ => false, fun _ => 0⟩ : Env).availMask) &&&
        UL ((0 : Nat) <<< 0) = 0 ∧
    UL (⟨7, 0, fun _ => false, fun _ => 0⟩ : Env).availMask &&&
        UL ((0 : Nat) <<< 0) = 0 ∧
    sbi_ipi_send_many ⟨7, 0, fun _ => false, fun _ => 0⟩ st0 0 0 0 0 =
      ((0 : Int), st0) :=
  ⟨Nat.zero_le _, by decide, by decide,
   send_many_empty_target_noop ⟨7, 0, fun _ => false, fun _ => 0⟩ st0 0 0 0 0
     (Nat.zero_le _) (by decide) (by decide)⟩

/-- C10: a FENCE delivery to a single hart whose fence-fifo enqueue
(`sbi_tlb_fifo_update`) fails with a negative error returns that error with
the state exactly unchanged: the target's pending-event word is untouched
and neither a bit set nor a doorbell (nor an enqueue) is performed. -/
theorem send_fence_enqueue_failure_leaves_target_untouched
    (env : Env) (st : State) (h d : Nat)
    (hdis : env.disabled h = false)
    (hret : env.tlbUpdateRet h < 0) :
    sbi_ipi_send env st h SBI_IPI_EVENT_FENCE d = (env.tlbUpdateRet h, st) := by
  simp [sbi_ipi_send, hdis, hret]

theorem send_fence_enqueue_failure_leaves_target_untouched_witness :
    (⟨7, 0, fun _ => false, fun _ => -5⟩ : Env).disabled 1 = false ∧
    (⟨7, 0, fun _ => false, fun _ => -5⟩ : Env).tlbUpdateRet 1 < 0 ∧
    sbi_ipi_send ⟨7, 0, fun _ => false, fun _ => -5⟩ st0 1
        SBI_IPI_EVENT_FENCE 0 =
      ((⟨7, 0, fun _ => false, fun _ => -5⟩ : Env).tlbUpdateRet 1, st0) :=
  ⟨by decide, by decide,
   send_fence_enqueue_failure_leaves_target_untouched
     ⟨7, 0, fun _ => false, fun _ => -5⟩ st0 1 0 (by decide) (by decide)⟩

/-- C7: per-target delivery failures are invisible to the caller of
`sbi_ipi_send_many`.  Whatever `sbi_platform_hart_disabled` and
`sbi_tlb_fifo_update` report, once mask validation passes the call returns
0, and every administratively disabled hart is skipped silently: its
pending-event word is unchanged. -/
theorem send_many_swallows_per_target_failures
    (env : Env) (st : State) (hmask hbase e d : Nat)
    (h1 : hbase ≤ fls (UL env.availMask))
    (h2 : lnot64 (UL env.availMask) &&& UL (hmask <<< hbase) = 0) :
    (sbi_ipi_send_many env st hmask hbase e d).1 = 0 ∧
    ∀ x, env.disabled x = true →
      (sbi_ipi_send_many env st hmask hbase e d).2.ipiType x =
        st.ipiType x := by
  rw [send_many_valid_eq env st hmask hbase e d h1 h2]
  refine ⟨rfl, fun x hx => ?_⟩
  have hloop := sendLoop_ipiType_disabled env e d x hx
    (targetMask env hmask hbase) 0 st
  split
  · rw [send_ipiType]
    by_cases hxh : x = env.hartid
    · subst hxh
      rw [if_pos rfl, deliveredWord_disabled env env.hartid e _ hx]
      exact hloop
    · rw [if_neg hxh]
      exact hloop
  · exact hloop

theorem send_many_swallows_per_target_failures_witness :
    (0 : Nat) ≤ fls (UL (⟨7, 0, fun _ => true, fun _ => -5⟩ : Env).availMask) ∧
    lnot64 (UL (⟨7, 0, fun _ => true, fun _ => -5⟩ : Env).availMask) &&&
        UL ((7 : Nat) <<< 0) = 0 ∧
    (sbi_ipi_send_many ⟨7, 0, fun _ => true, fun _ => -5⟩ st0 7 0 1 0).1 = 0 ∧
    (sbi_ipi_send_many ⟨7, 0, fun _ => true, fun _ => -5⟩ st0 7 0 1 0).2.ipiType
        2 = st0.ipiType 2 := by
  have h := send_many_swallows_per_target_failures
    ⟨7, 0, fun _ => true, fun _ => -5⟩ st0 7 0 1 0 (Nat.zero_le _) (by decide)
  exact ⟨Nat.zero_le _, by decide, h.1, h.2 2 (by decide)⟩

/-- C2: `sbi_ipi_process` exchanges the local pending-event word with zero
(other harts' words are untouched) and dispatches exactly the bit positions
set in that snapshot, in ascending order starting from bit 0; a bit set by
a sender's atomic bit-set after the exchange is dispatched exactly once by
the next `process()` — no lost event, no double dispatch. -/
theorem process_snapshot_exchange_and_dispatch (st : State) (H : Nat) :
    (sbi_ipi_process st H).1.ipiType H = 0 ∧
    (∀ x, x ≠ H → (sbi_ipi_process st H).1.ipiType x = st.ipiType x) ∧
    (sbi_ipi_process st H).2 = bitIndicesFrom 0 (st.ipiType H) ∧
    List.Pairwise (· < ·) (sbi_ipi_process st H).2 ∧
    (∀ p, p ∈ (sbi_ipi_process st H).2 ↔ (st.ipiType H).testBit p = true) ∧
    ∀ e, List.count e
      (sbi_ipi_process
        (setIpiType (sbi_ipi_process st H).1 H
          (atomic_raw_set_bit e ((sbi_ipi_process st H).1.ipiType H)))
        H).2 = 1 := by
  obtain ⟨h1, h2, h3, h4⟩ := process_spec st H
  refine ⟨h3, h4, h1, ?_, ?_, ?_⟩
  · rw [h1]; exact bitIndicesFrom_pairwise _ 0
  · intro p
    rw [h1, mem_bitIndicesFrom]
    simp
  · intro e
    obtain ⟨g1, -, -, -⟩ := process_spec
      (setIpiType (sbi_ipi_process st H).1 H
        (atomic_raw_set_bit e ((sbi_ipi_process st H).1.ipiType H))) H
    have hw : (setIpiType (sbi_ipi_process st H).1 H
        (atomic_raw_set_bit e ((sbi_ipi_process st H).1.ipiType H))).ipiType
          H = 1 <<< e := by
      simp [setIpiType, h3, atomic_raw_set_bit]
    have hmem : e ∈ (sbi_ipi_process
        (setIpiType (sbi_ipi_process st H).1 H
          (atomic_raw_set_bit e ((sbi_ipi_process st H).1.ipiType H))) H).2 := by
      rw [g1, hw, mem_bitIndicesFrom]
      refine ⟨Nat.zero_le e, ?_⟩
      simp [Nat.one_shiftLeft, Nat.testBit_two_pow_self]
    have hnd : (sbi_ipi_process
        (setIpiType (sbi_ipi_process st H).1 H
          (atomic_raw_set_bit e ((sbi_ipi_process st H).1.ipiType H))) H).2.Nodup := by
      rw [g1]; exact bitIndicesFrom_nodup _ 0
    exact List.count_eq_one_of_mem hnd hmem

/-- C5: sending the same event kind `K` twice to hart `H` before `H` runs
`process()` coalesces into a single pending bit, so the next `process()`
dispatches `K` exactly once — set-union semantics, not a counter. -/
theorem double_send_coalesces_to_one_dispatch
    (env : Env) (st : State) (H K d : Nat)
    (hdis : env.disabled H = false)
    (hf : K = SBI_IPI_EVENT_FENCE → 0 ≤ env.tlbUpdateRet H) :
    List.count K
      (sbi_ipi_process
        (sbi_ipi_send env (sbi_ipi_send env st H K d).2 H K d).2 H).2 = 1 := by
  have hword : ∀ w, deliveredWord env H K w = atomic_raw_set_bit K w := by
    intro w
    rw [deliveredWord, if_neg (by simp [hdis])]
    by_cases hK : K = SBI_IPI_EVENT_FENCE
    · rw [if_pos hK, if_neg (by have := hf hK; omega)]
    · rw [if_neg hK]
  have hw2 : ((sbi_ipi_send env (sbi_ipi_send env st H K d).2 H K d).2).ipiType
      H = atomic_raw_set_bit K (atomic_raw_set_bit K (st.ipiType H)) := by
    rw [send_ipiType, if_pos rfl, send_ipiType, if_pos rfl, hword, hword]
  obtain ⟨g1, -, -, -⟩ := process_spec
    (sbi_ipi_send env (sbi_ipi_send env st H K d).2 H K d).2 H
  have hmem : K ∈ (sbi_ipi_process
      (sbi_ipi_send env (sbi_ipi_send env st H K d).2 H K d).2 H).2 := by
    rw [g1, hw2, mem_bitIndicesFrom]
    refine ⟨Nat.zero_le K, ?_⟩
    simp [atomic_raw_set_bit, Nat.one_shiftLeft, Nat.testBit_two_pow_self]
  have hnd : (sbi_ipi_process
      (sbi_ipi_send env (sbi_ipi_send env st H K d).2 H K d).2 H).2.Nodup := by
    rw [g1]; exact bitIndicesFrom_nodup _ 0
  exact List.count_eq_one_of_mem hnd hmem

theorem double_send_coalesces_to_one_dispatch_witness :
    (⟨7, 0, fun _ => false, fun _ => 0⟩ : Env).disabled 2 = false ∧
    List.count 1
      (sbi_ipi_process
        (sbi_ipi_send ⟨7, 0, fun _ => false, fun _ => 0⟩
          (sbi_ipi_send ⟨7, 0, fun _ => false, fun _ => 0⟩ st0 2 1 0).2
          2 1 0).2 2).2 = 1 :=
  ⟨by decide,
   double_send_coalesces_to_one_dispatch ⟨7, 0, fun _ => false, fun _ => 0⟩
     st0 2 1 0 (by decide) (fun _ => by decide)⟩

/-- C9: a snapshot bit at a position not bound to a known event kind (any
position ≥ 3, i.e. neither SOFT, FENCE nor HALT) is dispatched as a no-op:
it contributes no collaborator call to the trace, the dispatcher does not
fault (it is total), and every other set bit — lower or higher — is still
dispatched. -/
theorem process_unknown_event_is_noop (st : State) (H p : Nat) :
    dispatchAction (p + 3) = [] ∧
    (sbi_ipi_process st H).1.trace =
      st.trace ++ Action.ackIrq H ::
        ((sbi_ipi_process st H).2.map dispatchAction).flatten ∧
    ∀ q, q ∈ (sbi_ipi_process st H).2 ↔ (st.ipiType H).testBit q = true := by
  obtain ⟨h1, h2, h3, h4⟩ := process_spec st H
  refine ⟨rfl, ?_, ?_⟩
  · rw [h1]; exact h2
  · intro q
    rw [h1, mem_bitIndicesFrom]
    simp

/-- C3: on a validated `sbi_ipi_send_many` whose caller is itself among the
targets, the fan-out visits the selected harts in ascending hart-id order
(the target list is strictly increasing and contains exactly the selected
bits), delivering to everyone but the caller first; the caller's own
delivery block is appended last, after all other targets. -/
theorem send_many_delivers_others_ascending_caller_last
    (env : Env) (st : State) (hmask hbase e d : Nat)
    (h1 : hbase ≤ fls (UL env.availMask))
    (h2 : lnot64 (UL env.availMask) &&& UL (hmask <<< hbase) = 0)
    (h3 : (targetMask env hmask hbase).testBit env.hartid = true) :
    List.Pairwise (· < ·) (bitIndicesFrom 0 (targetMask env hmask hbase)) ∧
    (∀ p, p ∈ bitIndicesFrom 0 (targetMask env hmask hbase) ↔
      (targetMask env hmask hbase).testBit p = true) ∧
    (sbi_ipi_send_many env st hmask hbase e d).2.trace =
      st.trace ++
        (((bitIndicesFrom 0 (targetMask env hmask hbase)).filter
            (fun j => decide (j ≠ env.hartid))).map
          (fun h => deliveryTrace env h e d)).flatten ++
        deliveryTrace env env.hartid e d := by
  obtain ⟨-, htr⟩ := send_many_valid env st hmask hbase e d h1 h2
  refine ⟨bitIndicesFrom_pairwise _ 0, ?_, ?_⟩
  · intro p
    rw [mem_bitIndicesFrom]
    simp
  · rw [htr, orderedTargets, if_pos h3]
    simp [List.append_assoc]

theorem send_many_delivers_others_ascending_caller_last_witness :
    (0 : Nat) ≤ fls (UL (⟨7, 0, fun _ => false, fun _ => 0⟩ : Env).availMask) ∧
    lnot64 (UL (⟨7, 0, fun _ => false, fun _ => 0⟩ : Env).availMask) &&&
        UL ((7 : Nat) <<< 0) = 0 ∧
    (targetMask ⟨7, 0, fun _ => false, fun _ => 0⟩ 7 0).testBit 0 = true ∧
    (sbi_ipi_send_many ⟨7, 0, fun _ => false, fun _ => 0⟩ st0 7 0 0 0).2.trace =
      st0.trace ++
        (((bitIndicesFrom 0
            (targetMask ⟨7, 0, fun _ => false, fun _ => 0⟩ 7 0)).filter
            (fun j => decide (j ≠ (⟨7, 0, fun _ => false, fun _ => 0⟩ :
              Env).hartid))).map
          (fun h => deliveryTrace ⟨7, 0, fun _ => false, fun _ => 0⟩ h 0 0)).flatten ++
        deliveryTrace ⟨7, 0, fun _ => false, fun _ => 0⟩ 0 0 0 := by
  have h := send_many_delivers_others_ascending_caller_last
    ⟨7, 0, fun _ => false, fun _ => 0⟩ st0 7 0 0 0
    (Nat.zero_le _) (by decide) (by decide)
  exact ⟨Nat.zero_le _, by decide, by decide, h.2.2⟩

/-- C4: a validated FENCE fan-out performs, for each selected hart in
`orderedTargets` order (all harts enabled and every enqueue succeeding),
the block enqueue → atomic bit-set → write barrier → doorbell → blocking
fence sync; the blocks are concatenated sequentially, so the sync of one
target completes (appears in the trace) before the enqueue of the next
target begins. -/
theorem fence_fanout_sequential_per_target
    (env : Env) (st : State) (hmask hbase d : Nat)
    (h1 : hbase ≤ fls (UL env.availMask))
    (h2 : lnot64 (UL env.availMask) &&& UL (hmask <<< hbase) = 0)
    (hok : ∀ p, (targetMask env hmask hbase).testBit p = true →
      env.disabled p = false ∧ 0 ≤ env.tlbUpdateRet p) :
    (sbi_ipi_send_many env st hmask hbase SBI_IPI_EVENT_FENCE d).2.trace =
      st.trace ++ ((orderedTargets env hmask hbase).map
        (fun h => [Action.enqueue h d, .setBit h SBI_IPI_EVENT_FENCE,
                   .wmb, .doorbell h, .fenceSync])).flatten := by
  obtain ⟨-, htr⟩ :=
    send_many_valid env st hmask hbase SBI_IPI_EVENT_FENCE d h1 h2
  rw [htr]
  refine congrArg (st.trace ++ ·) (congrArg List.flatten ?_)
  apply List.map_congr_left
  intro a ha
  have hbit : (targetMask env hmask hbase).testBit a = true := by
    rcases List.mem_append.mp ha with hl | hr
    · have := (mem_bitIndicesFrom.mp (List.mem_filter.mp hl).1).2
      simpa using this
    · by_cases hc : (targetMask env hmask hbase).testBit env.hartid = true
      · rw [if_pos hc] at hr
        simp at hr
        subst hr
        exact hc
      · rw [if_neg hc] at hr
        simp at hr
  obtain ⟨hd, hr0⟩ := hok a hbit
  rw [deliveryTrace, if_neg (by simp [hd]), if_pos rfl, if_neg (by omega)]

theorem fence_fanout_sequential_per_target_witness :
    (0 : Nat) ≤ fls (UL (⟨7, 0, fun _ => false, fun _ => 0⟩ : Env).availMask) ∧
    lnot64 (UL (⟨7, 0, fun _ => false, fun _ => 0⟩ : Env).availMask) &&&
        UL ((6 : Nat) <<< 0) = 0 ∧
    (sbi_ipi_send_many ⟨7, 0, fun _ => false, fun _ => 0⟩ st0 6 0
        SBI_IPI_EVENT_FENCE 0).2.trace =
      st0.trace ++
        ((orderedTargets ⟨7, 0, fun _ => false, fun _ => 0⟩ 6 0).map
          (fun h => [Action.enqueue h 0, .setBit h SBI_IPI_EVENT_FENCE,
                     .wmb, .doorbell h, .fenceSync])).flatten :=
  ⟨Nat.zero_le _, by decide,
   fence_fanout_sequential_per_target ⟨7, 0, fun _ => false, fun _ => 0⟩
     st0 6 0 0 (Nat.zero_le _) (by decide)
     (fun p _ => ⟨rfl, Int.le_refl 0⟩)⟩

/-- C6 counterexample: on a cold boot whose scratch-offset allocation
succeeds (`allocRet = 1 ≠ 0`), `sbi_ipi_init` can still return
`SBI_ENOMEM` — here because the external `sbi_tlb_fifo_init` failed with
`SBI_ENOMEM` and the code propagates that result verbatim.  So "returns
`SBI_ENOMEM` exactly when the allocation conditions fail" is false as
stated. -/
theorem init_enomem_not_only_from_allocation :
    (sbi_ipi_init ⟨0, 1, SBI_ENOMEM, 0⟩ 0 st0 true).1 = SBI_ENOMEM ∧
    (⟨0, 1, SBI_ENOMEM, 0⟩ : InitEnv).allocRet ≠ 0 := by
  constructor
  · decide
  · decide

/-- C6 amended: `sbi_ipi_init` returns `SBI_ENOMEM` exactly when the cold
boot allocation returned 0, or a non-cold boot found the stored offset
still 0, or those checks passed and the propagated result of the external
fence-queue init (or, after it succeeded, of the platform init) was itself
`SBI_ENOMEM`; and on every successful run the local pending-event word has
been reset to zero and the reset precedes the fence-queue and platform
initializations in the trace. -/
theorem init_enomem_characterization
    (env : InitEnv) (off : Nat) (st : State) (cold : Bool) :
    ((sbi_ipi_init env off st cold).1 = SBI_ENOMEM ↔
      ((cold = true ∧ env.allocRet = 0) ∨ (cold = false ∧ off = 0) ∨
        (((cold = true ∧ env.allocRet ≠ 0) ∨ (cold = false ∧ off ≠ 0)) ∧
          (env.tlbInitRet = SBI_ENOMEM ∨
            (env.tlbInitRet = 0 ∧ env.platformIpiInitRet = SBI_ENOMEM))))) ∧
    ((sbi_ipi_init env off st cold).1 = 0 →
      (sbi_ipi_init env off st cold).2.2.ipiType env.hartid = 0 ∧
      (sbi_ipi_init env off st cold).2.2.trace =
        st.trace ++ [.resetWord env.hartid, .tlbInit, .platformInit,
          .enableSoftIrq]) := by
  rcases cold
  · by_cases hoff : off = 0
    · constructor
      · simp [sbi_ipi_init, hoff, SBI_ENOMEM]
      · intro hs
        simp [sbi_ipi_init, hoff, SBI_ENOMEM] at hs
    · by_cases htlb : env.tlbInitRet = 0
      · by_cases hplat : env.platformIpiInitRet = 0
        · constructor
          · simp [sbi_ipi_init, hoff, htlb, hplat, SBI_ENOMEM]
          · intro hs
            simp [sbi_ipi_init, hoff, htlb, hplat, setIpiType, emit]
        · constructor
          · simp [sbi_ipi_init, hoff, htlb, hplat, SBI_ENOMEM]
          · intro hs
            simp [sbi_ipi_init, hoff, htlb, hplat, SBI_ENOMEM] at hs
      · constructor
        · simp [sbi_ipi_init, hoff, htlb, SBI_ENOMEM]
        · intro hs
          simp [sbi_ipi_init, hoff, htlb, SBI_ENOMEM] at hs
  · by_cases halloc : env.allocRet = 0
    · constructor
      · simp [sbi_ipi_init, halloc, SBI_ENOMEM]
      · intro hs
        simp [sbi_ipi_init, halloc, SBI_ENOMEM] at hs
    · by_cases htlb : env.tlbInitRet = 0
      · by_cases hplat : env.platformIpiInitRet = 0
        · constructor
          · simp [sbi_ipi_init, halloc, htlb, hplat, SBI_ENOMEM]
          · intro hs
            simp [sbi_ipi_init, halloc, htlb, hplat, setIpiType, emit]
        · constructor
          · simp [sbi_ipi_init, halloc, htlb, hplat, SBI_ENOMEM]
          · intro hs
            simp [sbi_ipi_init, halloc, htlb, hplat, SBI_ENOMEM] at hs
      · constructor
        · simp [sbi_ipi_init, halloc, htlb, SBI_ENOMEM]
        · intro hs
          simp [sbi_ipi_init, halloc, htlb, SBI_ENOMEM] at hs

theorem init_enomem_characterization_witness :
    (sbi_ipi_init ⟨0, 1, 0, 0⟩ 0 st0 true).2.2.ipiType 0 = 0 ∧
    (sbi_ipi_init ⟨0, 1, 0, 0⟩ 0 st0 true).2.2.trace =
      st0.trace ++ [.resetWord 0, .tlbInit, .platformInit, .enableSoftIrq] :=
  (init_enomem_characterization ⟨0, 1, 0, 0⟩ 0 st0 true).2 (by decide)

end SbiIpi
